import Mathlib

/-!
Shallow embedding of the Neuro-Aug augmentation pipeline
(src/code/imgaug.py and src/code/speechaug.py), with theorems checking the
natural-language specification against the code.

Conventions:
* PIL images are modelled as a width, a height and a total pixel function;
  only coordinates with x < w and y < h are meaningful.
* Python ints are Lean Int; `random.randint` draws are supplied as an
  explicit stream `rng : Nat -> Int` consumed in program order.
* Audio sample data is a list of real samples; float arithmetic of the
  source is modelled over the reals.
-/

namespace NeuroAug

/-- An 8-bit RGB pixel as stored by PIL; channels are integers. -/
structure RGB where
  r : Int
  g : Int
  b : Int
deriving DecidableEq, Repr

/-- A raster image: width, height, and the pixel grid (total function,
meaningful on [0,w) x [0,h)). -/
structure Img where
  w : Nat
  h : Nat
  pix : Nat → Nat → RGB

/-- Channel clamping `max(0, min(v, 255))` as in imgaug.py lines 16-18. -/
def clamp (v : Int) : Int := max 0 (min v 255)

/-- The pixel grid as a function, updated pointwise (models `pixels[i, j] = ...`). -/
def PixMap : Type := Nat → Nat → RGB

/-- Write one pixel of the grid in place. -/
def updPix (p : PixMap) (i j : Nat) (v : RGB) : PixMap :=
  fun x y => if x = i ∧ y = j then v else p x y

/-- One pixel after adding the same drawn noise value to all three channels
and clamping, as in imgaug.py lines 14-19. -/
def noisyPix (n : Int) (c : RGB) : RGB :=
  ⟨clamp (c.r + n), clamp (c.g + n), clamp (c.b + n)⟩

/-- Body of the inner loop of `add_noise`: at pixel (i, j), draw one noise
value from the stream (state component 2 is the number of draws made so far)
and write the noisy pixel back. -/
def noiseStep (rng : Nat → Int) (i j : Nat) (st : PixMap × Nat) : PixMap × Nat :=
  (updPix st.1 i j (noisyPix (rng st.2) (st.1 i j)), st.2 + 1)

/-- The inner loop `for j in range(h)` of `add_noise` at column i. -/
def noiseRow (rng : Nat → Int) (h i : Nat) (st : PixMap × Nat) : PixMap × Nat :=
  (List.range h).foldl (fun st j => noiseStep rng i j st) st

/-- The outer loop `for i in range(w)` of `add_noise`. -/
def noiseLoops (rng : Nat → Int) (w h : Nat) (st : PixMap × Nat) : PixMap × Nat :=
  (List.range w).foldl (fun st i => noiseRow rng h i st) st

/-- imgaug.py `add_noise` (lines 6-20): per pixel, draw ONE integer noise
value and add it to r, g and b, clamping each to [0,255]. The image is
assumed already in RGB mode (the function converts first otherwise). -/
def add_noise (rng : Nat → Int) (img : Img) : Img :=
  ⟨img.w, img.h, (noiseLoops rng img.w img.h (img.pix, 0)).1⟩

/-- Modelled from the spec: the spec's NoiseInjection kernel, which for each
pixel draws THREE independent noise values, one per channel ("for each of
R,G,B independently draw integer noise ~ U{-20,20}"). Differs from the code
only in consuming three draws per pixel instead of one. -/
def noiseStep3 (rng : Nat → Int) (i j : Nat) (st : PixMap × Nat) : PixMap × Nat :=
  (updPix st.1 i j
    ⟨clamp ((st.1 i j).r + rng st.2),
     clamp ((st.1 i j).g + rng (st.2 + 1)),
     clamp ((st.1 i j).b + rng (st.2 + 2))⟩, st.2 + 3)

/-- Modelled from the spec: inner loop of the three-draws-per-pixel variant. -/
def noiseRow3 (rng : Nat → Int) (h i : Nat) (st : PixMap × Nat) : PixMap × Nat :=
  (List.range h).foldl (fun st j => noiseStep3 rng i j st) st

/-- Modelled from the spec: both loops of the three-draws-per-pixel variant. -/
def noiseLoops3 (rng : Nat → Int) (w h : Nat) (st : PixMap × Nat) : PixMap × Nat :=
  (List.range w).foldl (fun st i => noiseRow3 rng h i st) st

/-- Modelled from the spec: NoiseInjection with three independent draws per
pixel, applied to R, G, B respectively. -/
def add_noise_spec3 (rng : Nat → Int) (img : Img) : Img :=
  ⟨img.w, img.h, (noiseLoops3 rng img.w img.h (img.pix, 0)).1⟩

/-- PIL `Image.rotate(90)` with default arguments (no expand, nearest
resampling, fill 0). Pillow takes an exact transpose fast path when the
image is square; otherwise it rotates about the centre inside the SAME
w x h canvas through an affine map, cropping what falls outside and filling
the rest with black. The affine source coordinates are exact half-integers
(xin = (w+h)/2 - y - 1/2, yin = x + 1/2 + (h-w)/2), encoded here doubled as
integers; a negative source coordinate is out of bounds. -/
def rotate90 (img : Img) : Img :=
  if img.w = img.h then
    ⟨img.w, img.h, fun x y => img.pix (img.w - 1 - y) x⟩
  else
    ⟨img.w, img.h, fun x y =>
      let X2 : Int := (img.w : Int) + (img.h : Int) - 2 * (y : Int) - 1
      let Y2 : Int := 2 * (x : Int) + 1 + (img.h : Int) - (img.w : Int)
      if 0 ≤ X2 ∧ X2 / 2 < (img.w : Int) ∧ 0 ≤ Y2 ∧ Y2 / 2 < (img.h : Int) then
        img.pix (X2 / 2).toNat (Y2 / 2).toNat
      else ⟨0, 0, 0⟩⟩

/-! ### Composer control flow (imgaug.py lines 28-48, speechaug.py lines 70-86)

The composer logic is generic in the buffer type and in what each kernel
does; a kernel application is a function returning `Except Unit β`, where
`.error` models a raised exception. -/

/-- The `try: for augmentation in selected: image = augmentation(image)`
block of imgaug.py lines 42-45: apply kernels sequentially; on the first
raised exception stop and report the exception together with the value of
the local variable `image` at that moment (the buffer after the kernels
that already succeeded). -/
def tryChain {κ β : Type} (step : κ → β → Except Unit β) :
    List κ → β → Except (Unit × β) β
  | [], b => .ok b
  | k :: ks, b =>
    match step k b with
    | .ok b2 => tryChain step ks b2
    | .error e => .error (e, b)

/-- imgaug.py `augment_image` body after kernel selection (lines 42-48):
run the chain inside one try block; the `except` handler prints the error
and returns the current value of `image`. The result is `.error` only if
an exception escapes the function — which never happens. -/
def augment_image {κ β : Type} (step : κ → β → Except Unit β)
    (ks : List κ) (b : β) : Except Unit β :=
  match tryChain step ks b with
  | .ok r => .ok r
  | .error (_, cur) => .ok cur

/-- Reference semantics of the loop: apply kernels until the first failure
and keep the buffer accumulated so far (partial effects retained). -/
def chainKept {κ β : Type} (step : κ → β → Except Unit β) :
    List κ → β → β
  | [], b => b
  | k :: ks, b =>
    match step k b with
    | .ok b2 => chainKept step ks b2
    | .error _ => b

/-- The per-kernel try/except wrapper every audio kernel of speechaug.py
carries (e.g. lines 9-27, 30-36): on an internal exception, print and
return the input audio unchanged. -/
def guardStep {κ β : Type} (step : κ → β → Except Unit β) :
    κ → β → Except Unit β :=
  fun k b =>
    match step k b with
    | .ok r => .ok r
    | .error _ => .ok b

/-- Sequential kernel application with NO composer-level catch, as in
speechaug.py `augment_audio` lines 82-85: an exception raised by a step
propagates out. -/
def runChainExc {κ β : Type} (step : κ → β → Except Unit β) :
    List κ → β → Except Unit β
  | [], b => .ok b
  | k :: ks, b =>
    match step k b with
    | .ok b2 => runChainExc step ks b2
    | .error e => .error e

/-- speechaug.py `augment_audio` body after kernel selection (lines 82-86):
each kernel is individually guarded by its own try/except; the composer
itself has no catch. -/
def augment_audio {κ β : Type} (step : κ → β → Except Unit β)
    (ks : List κ) (b : β) : Except Unit β :=
  runChainExc (guardStep step) ks b

/-! ### Kernel pools and the size of the selected chain -/

/-- The seven image kernels of imgaug.py lines 29-37, in declaration order. -/
inductive ImgKernel where
  | gaussianBlur
  | brightness
  | contrast
  | noiseInjection
  | rotation
  | mirror
  | affineShift
deriving DecidableEq, Repr

/-- The `augmentations` list of imgaug.py lines 29-37. -/
def imgPool : List ImgKernel :=
  [.gaussianBlur, .brightness, .contrast, .noiseInjection, .rotation,
   .mirror, .affineShift]

/-- The five audio kernels of speechaug.py lines 71-77, in declaration order. -/
inductive AudioKernel where
  | noiseOverlay
  | timeStretch
  | pitchShift
  | volumeAdjust
  | reverb
deriving DecidableEq, Repr

/-- The `augmentations` list of speechaug.py lines 71-77. -/
def audioPool : List AudioKernel :=
  [.noiseOverlay, .timeStretch, .pitchShift, .volumeAdjust, .reverb]

/-- Possible outcomes of `random.randint(1, 4)` in imgaug.py line 39. -/
def imgDrawOutcomes : Finset Nat := Finset.Icc 1 4

/-- Possible outcomes of `random.randint(1, 3)` in speechaug.py line 79. -/
def audioDrawOutcomes : Finset Nat := Finset.Icc 1 3

/-- Number of kernels actually sampled by imgaug.py line 40:
`min(num_augmentations, len(augmentations))`. -/
def imgNumApplied (draw : Nat) : Nat := min draw imgPool.length

/-- Number of kernels actually sampled by speechaug.py line 80:
`min(num_effects, len(augmentations))`. -/
def audioNumApplied (draw : Nat) : Nat := min draw audioPool.length

/-! ### Audio model (speechaug.py)

A pydub `AudioSegment` is a nominal frame rate plus raw PCM data; the data
is modelled as a list of real samples (the source's float arithmetic over
the reals). -/

/-- A pydub AudioSegment: nominal frame rate and raw sample data. -/
structure AudioSeg where
  frameRate : Nat
  samples : List ℝ

/-- Python `int()` on a real value: truncation toward zero. -/
noncomputable def pyInt (x : ℝ) : Int := if 0 ≤ x then ⌊x⌋ else ⌈x⌉

/-- pydub `audio._spawn(audio.raw_data, overrides={"frame_rate": r})`:
same raw data, reinterpreted at nominal frame rate r. -/
def spawnWithFrameRate (a : AudioSeg) (r : Nat) : AudioSeg :=
  ⟨r, a.samples⟩

/-- speechaug.py `time_stretch` (lines 29-36), success path: reinterpret
the raw data at `int(frame_rate * rate)`, then convert back to the original
nominal rate. pydub's `set_frame_rate` resampling is kept abstract as the
parameter `setFR`. -/
noncomputable def time_stretch (setFR : AudioSeg → Nat → AudioSeg)
    (a : AudioSeg) (rate : ℝ) : AudioSeg :=
  setFR (spawnWithFrameRate a (pyInt ((a.frameRate : ℝ) * rate)).toNat)
    a.frameRate

/-- speechaug.py `pitch_shift` (lines 38-46), success path:
`new_sample_rate = int(frame_rate * 2 ** (semitones / 12))`, then the same
reinterpret-and-reset mechanism, with the same abstract `setFR`. -/
noncomputable def pitch_shift (setFR : AudioSeg → Nat → AudioSeg)
    (a : AudioSeg) (semitones : ℝ) : AudioSeg :=
  setFR
    (spawnWithFrameRate a
      (pyInt ((a.frameRate : ℝ) * (2 : ℝ) ^ (semitones / 12))).toNat)
    a.frameRate

/-- Sum of squared samples. -/
def sumSq (xs : List ℝ) : ℝ := (xs.map fun s => s * s).sum

/-- Root-mean-square amplitude of sample data (pydub `AudioSegment.rms`). -/
noncomputable def rms (xs : List ℝ) : ℝ := Real.sqrt (sumSq xs / xs.length)

/-- pydub `AudioSegment.dBFS`: loudness relative to the maximum possible
amplitude, `20 * log10(rms / max_possible_amplitude)`. -/
noncomputable def dBFS (maxAmp : ℝ) (xs : List ℝ) : ℝ :=
  20 * Real.logb 10 (rms xs / maxAmp)

/-- pydub gain application (`segment + g` / `segment - (-g)` in dB):
multiply every sample by `10 ** (g / 20)`. -/
noncomputable def applyGain (g : ℝ) (xs : List ℝ) : List ℝ :=
  xs.map fun s => s * (10 : ℝ) ^ (g / 20)

/-- pydub `seg1.overlay(seg2)` at position 0: sample-wise sum; the result
always has seg1's length — a longer seg2 is truncated, a shorter one
leaves seg1's tail unchanged. -/
def overlaySamples (a b : List ℝ) : List ℝ :=
  (List.zipWith (fun x y => x + y) a b) ++ a.drop b.length

/-- speechaug.py `add_noise` (lines 8-27), success path, at the sample
level. The synthesized noise (white, pink or brown, of matching duration)
is abstracted as the sample list `noise`. Per the code: if the audio is
empty it is returned unchanged; otherwise the noise receives gain
`-(noise.dBFS - audio.dBFS - noise_level)` and is overlaid onto the audio. -/
noncomputable def add_noise_audio (maxAmp : ℝ) (audio noise : List ℝ)
    (level : ℝ) : List ℝ :=
  if audio.length = 0 then audio
  else
    overlaySamples audio
      (applyGain (-(dBFS maxAmp noise - dBFS maxAmp audio - level)) noise)

/-- pydub `seg1.overlay(seg2, position=pos)` (pos in frames here): seg1 up
to pos, then the mix; the result keeps seg1's length. -/
def overlayAt (pos : Nat) (a b : List ℝ) : List ℝ :=
  a.take pos ++ overlaySamples (a.drop pos) b

/-- pydub millisecond-to-frame conversion, `int(ms * (frame_rate / 1000.0))`
(float rounding immaterial for the properties proved here). -/
def msToFrames (frameRate ms : Nat) : Nat := ms * frameRate / 1000

/-- Output frame count of `audioop.ratecv` (CPython Modules/audioop.c)
resampling n frames from rate i to rate o: the rates are first divided by
their gcd g, the conversion loop starts at d = -(o/g), consuming a frame
adds o/g and emitting one subtracts i/g while d ≥ 0, so n ≥ 1 input frames
yield (o/g)*(n-1)/(i/g) + 1 output frames; empty input yields empty output
(pydub's `set_frame_rate` short-circuits empty data). -/
def ratecvLen (n i o : Nat) : Nat :=
  if n = 0 then 0 else (o / Nat.gcd i o) * (n - 1) / (i / Nat.gcd i o) + 1

/-- pydub `set_frame_rate` as invoked by `AudioSegment._sync`: identity
when the target rate equals the segment's rate; otherwise `audioop.ratecv`
resampling, whose interpolated sample values are supplied by the abstract
resampler conv. A faithful conv returns `ratecvLen`-many frames; theorems
that depend on the count of a converted segment take that as a hypothesis
or instantiate conv with such a resampler. -/
def syncToRate (conv : List ℝ → Nat → Nat → List ℝ) (a : AudioSeg)
    (r : Nat) : AudioSeg :=
  if a.frameRate = r then a else ⟨r, conv a.samples a.frameRate r⟩

/-- speechaug.py `reverb_effect` (lines 55-68), success path, including
pydub's frame-rate synchronisation. The echo is the input attenuated by
6 dB, at the input's frame rate; the silence is generated at
`AudioSegment.silent`'s default frame rate of 11025 Hz; `silence + echo`
(pydub `append`) first converts BOTH operands to the larger of their two
frame rates (`AudioSegment._sync` / `set_frame_rate` / `audioop.ratecv`)
and concatenates the synced data; `orig.overlay(echo, position=delay)`
again syncs both operands to the larger frame rate — resampling the
original itself when its rate is below the combined echo's — and then
keeps exactly the synced original's frame count, mixing in the echo from
the millisecond offset. Sample-width and channel synchronisation do not
affect frame counts and are omitted. -/
noncomputable def reverb_effect (conv : List ℝ → Nat → Nat → List ℝ)
    (a : AudioSeg) (decay : ℝ) : AudioSeg :=
  let echo : AudioSeg := ⟨a.frameRate, applyGain (-6) a.samples⟩
  let delayMs : Nat := (pyInt (decay * 1000)).toNat
  let silence : AudioSeg :=
    ⟨11025, List.replicate (msToFrames 11025 delayMs) (0 : ℝ)⟩
  let rCat : Nat := max silence.frameRate echo.frameRate
  let combined : AudioSeg :=
    ⟨rCat, (syncToRate conv silence rCat).samples ++
      (syncToRate conv echo rCat).samples⟩
  let rOv : Nat := max a.frameRate combined.frameRate
  ⟨rOv, overlayAt (msToFrames rOv delayMs) (syncToRate conv a rOv).samples
      (syncToRate conv combined rOv).samples⟩

/-! ### Buffer store (aliasing model for the driver loops)

Python buffers live on a heap; `img.copy()` allocates a fresh buffer,
PIL's `add_noise` writes through its argument in place, and every other
image kernel — and every pydub operation — returns a freshly allocated
buffer. The heap is a store of buffers indexed by Nat ids. -/

/-- A heap of buffers: contents per id, and the next fresh id. -/
structure Store (β : Type) where
  bufs : Nat → β
  next : Nat

/-- Allocate a fresh buffer holding v; returns the new store and the id. -/
def Store.alloc {β : Type} (s : Store β) (v : β) : Store β × Nat :=
  (⟨fun i => if i = s.next then v else s.bufs i, s.next + 1⟩, s.next)

/-- Overwrite the buffer at an existing id in place. -/
def Store.put {β : Type} (s : Store β) (id : Nat) (v : β) : Store β :=
  ⟨fun i => if i = id then v else s.bufs i, s.next⟩

/-- Which image kernels mutate their argument in place: only `add_noise`
(imgaug.py lines 10-19 write through `pixels[i, j]` and return the same
object); the other six return fresh PIL images. -/
def imgKernelInPlace : ImgKernel → Bool
  | .noiseInjection => true
  | _ => false

/-- One image kernel applied on the heap: an in-place kernel writes the
transformed buffer back through the same id; the others allocate. The
mathematical content of each kernel is abstracted as f. -/
def applyImgKernelSt {β : Type} (f : ImgKernel → β → β) (s : Store β)
    (id : Nat) (k : ImgKernel) : Store β × Nat :=
  if imgKernelInPlace k then (s.put id (f k (s.bufs id)), id)
  else s.alloc (f k (s.bufs id))

/-- The image chain on the heap, threading the id of the local `image`. -/
def runImgChainSt {β : Type} (f : ImgKernel → β → β) (s : Store β)
    (id : Nat) : List ImgKernel → Store β × Nat
  | [] => (s, id)
  | k :: ks =>
    let r := applyImgKernelSt f s id k
    runImgChainSt f r.1 r.2 ks

/-- One iteration of the imgaug.py driver loop (lines 65-66):
`augment_image(img.copy())` — deep-copy the original, then run the chain
on the copy. -/
def imgDriverCopy {β : Type} (f : ImgKernel → β → β) (s : Store β)
    (origId : Nat) (ks : List ImgKernel) : Store β × Nat :=
  let r := s.alloc (s.bufs origId)
  runImgChainSt f r.1 r.2 ks

/-- One audio kernel applied on the heap: every pydub operation is pure and
returns a freshly allocated segment; nothing is written in place. -/
def applyAudioKernelSt {β : Type} (g : AudioKernel → β → β) (s : Store β)
    (id : Nat) (k : AudioKernel) : Store β × Nat :=
  s.alloc (g k (s.bufs id))

/-- The audio chain on the heap. -/
def runAudioChainSt {β : Type} (g : AudioKernel → β → β) (s : Store β)
    (id : Nat) : List AudioKernel → Store β × Nat
  | [] => (s, id)
  | k :: ks =>
    let r := applyAudioKernelSt g s id k
    runAudioChainSt g r.1 r.2 ks

/-- One iteration of the speechaug.py driver loop (line 126):
`augment_audio(audio)` — no copy is taken; the chain starts directly from
the original's id (safe because audio kernels never write in place). -/
def audioDriverCopy {β : Type} (g : AudioKernel → β → β) (s : Store β)
    (origId : Nat) (ks : List AudioKernel) : Store β × Nat :=
  runAudioChainSt g s origId ks

/-! ### Concrete inputs used by counterexamples and witnesses -/

/-- A concrete noise stream: draws 5, -3, 7, 7, 7, ... -/
def cexRng : Nat → Int := fun t => if t = 0 then 5 else if t = 1 then -3 else 7

/-- A concrete 1 x 1 grey image. -/
def cexImg : Img := ⟨1, 1, fun _ _ => ⟨100, 100, 100⟩⟩

/-- A concrete non-square 2 x 1 image with two distinct pixels. -/
def cexImgNS : Img := ⟨2, 1, fun x _ => if x = 0 then ⟨1, 1, 1⟩ else ⟨2, 2, 2⟩⟩

/-- A concrete square 2 x 2 image whose pixels encode their coordinates. -/
def cexSq : Img := ⟨2, 2, fun x y => ⟨(x : Int), (y : Int), 0⟩⟩

/-- A concrete chain step over Int buffers: kernel 0 adds one and succeeds,
every other kernel raises. -/
def cexStep : Nat → Int → Except Unit Int :=
  fun k b => if k = 0 then .ok (b + 1) else .error ()

/-- A concrete one-buffer image store. -/
def cexStoreI : Store Int := ⟨fun _ => 7, 1⟩

/-- A concrete one-buffer audio store. -/
def cexStoreA : Store Int := ⟨fun _ => 9, 1⟩

/-- A concrete resampler with the exact `audioop.ratecv` frame count and
zero-valued interpolated samples. -/
def cexConv : List ℝ → Nat → Nat → List ℝ :=
  fun xs i o => List.replicate (ratecvLen xs.length i o) 0

/-- A concrete telephone-band clip: 4 samples at 8000 Hz, below the
11025 Hz silence default. -/
def cexClip : AudioSeg := ⟨8000, [1, 1, 1, 1]⟩

/-- A concrete CD-rate clip: one sample at 44100 Hz. -/
def cexClipHi : AudioSeg := ⟨44100, [1]⟩

end NeuroAug

namespace NeuroAug

/-! ## Helper lemmas -/

/-- Unfolding of the inner noise loop at the last column index. -/
theorem noiseRow_succ (rng : Nat → Int) (n i : Nat) (st : PixMap × Nat) :
    noiseRow rng (n + 1) i st = noiseStep rng i n (noiseRow rng n i st) := by
  rw [noiseRow, noiseRow, List.range_succ, List.foldl_append, List.foldl_cons,
    List.foldl_nil]

/-- Unfolding of the outer noise loop at the last row index. -/
theorem noiseLoops_succ (rng : Nat → Int) (n h : Nat) (st : PixMap × Nat) :
    noiseLoops rng (n + 1) h st = noiseRow rng h n (noiseLoops rng n h st) := by
  rw [noiseLoops, noiseLoops, List.range_succ, List.foldl_append,
    List.foldl_cons, List.foldl_nil]

/-- The inner loop makes exactly h draws. -/
theorem noiseRow_snd (rng : Nat → Int) (h i : Nat) (st : PixMap × Nat) :
    (noiseRow rng h i st).2 = st.2 + h := by
  induction h generalizing st with
  | zero => rfl
  | succ n ih =>
    rw [noiseRow_succ]
    simp only [noiseStep]
    rw [ih st]
    omega

/-- The inner loop at column i does not touch pixels of other columns. -/
theorem noiseRow_ne {x i : Nat} (hx : x ≠ i) (rng : Nat → Int) (h y : Nat)
    (st : PixMap × Nat) : (noiseRow rng h i st).1 x y = st.1 x y := by
  induction h generalizing st with
  | zero => rfl
  | succ n ih =>
    rw [noiseRow_succ]
    simp only [noiseStep, updPix]
    rw [if_neg (fun hc => hx hc.1)]
    exact ih st

/-- The inner loop of length h does not touch rows at index ≥ h. -/
theorem noiseRow_ge {h j : Nat} (hj : h ≤ j) (rng : Nat → Int) (i x : Nat)
    (st : PixMap × Nat) : (noiseRow rng h i st).1 x j = st.1 x j := by
  induction h generalizing st with
  | zero => rfl
  | succ n ih =>
    rw [noiseRow_succ]
    simp only [noiseStep, updPix]
    rw [if_neg (fun hc => by omega)]
    exact ih (by omega) st

/-- The inner loop at column i writes pixel (i, j) exactly once, with the
(st.2 + j)-th draw of the stream. -/
theorem noiseRow_lt {j h : Nat} (hj : j < h) (rng : Nat → Int) (i : Nat)
    (st : PixMap × Nat) :
    (noiseRow rng h i st).1 i j = noisyPix (rng (st.2 + j)) (st.1 i j) := by
  induction h generalizing st with
  | zero => omega
  | succ n ih =>
    rw [noiseRow_succ]
    simp only [noiseStep, updPix]
    by_cases hjn : j = n
    · subst hjn
      rw [noiseRow_snd, noiseRow_ge le_rfl]
      simp
    · rw [if_neg (fun hc => hjn hc.2)]
      exact ih (by omega) st

/-- The two loops together make exactly w * h draws. -/
theorem noiseLoops_snd (rng : Nat → Int) (w h : Nat) (st : PixMap × Nat) :
    (noiseLoops rng w h st).2 = st.2 + w * h := by
  induction w generalizing st with
  | zero =>
    show st.2 = st.2 + 0 * h
    omega
  | succ n ih =>
    rw [noiseLoops_succ, noiseRow_snd, ih st]
    ring

/-- The outer loop of length w does not touch columns at index ≥ w. -/
theorem noiseLoops_ge {w i : Nat} (hi : w ≤ i) (rng : Nat → Int) (h y : Nat)
    (st : PixMap × Nat) : (noiseLoops rng w h st).1 i y = st.1 i y := by
  induction w generalizing st with
  | zero => rfl
  | succ n ih =>
    rw [noiseLoops_succ, noiseRow_ne (by omega)]
    exact ih (by omega) st

/-- Loop characterization: pixel (i, j) receives exactly one draw, the
(i * h + j)-th of the stream, added to all three channels. -/
theorem noiseLoops_at {i w j h : Nat} (hi : i < w) (hj : j < h)
    (rng : Nat → Int) (st : PixMap × Nat) :
    (noiseLoops rng w h st).1 i j =
      noisyPix (rng (st.2 + (i * h + j))) (st.1 i j) := by
  induction w generalizing st with
  | zero => omega
  | succ n ih =>
    rw [noiseLoops_succ]
    by_cases hin : i = n
    · subst hin
      rw [noiseRow_lt hj, noiseLoops_snd, noiseLoops_ge le_rfl]
      congr 2
      ring
    · rw [noiseRow_ne hin]
      exact ih (by omega) st

/-- Per-pixel characterization of imgaug.py `add_noise`: one draw per pixel,
the same value on all three channels. -/
theorem add_noise_pix (rng : Nat → Int) (img : Img) (i j : Nat)
    (hi : i < img.w) (hj : j < img.h) :
    (add_noise rng img).pix i j =
      noisyPix (rng (i * img.h + j)) (img.pix i j) := by
  show (noiseLoops rng img.w img.h (img.pix, 0)).1 i j = _
  rw [noiseLoops_at hi hj]
  norm_num

/-- The clamp of any integer lies in [0, 255]. -/
theorem clamp_mem (v : Int) : 0 ≤ clamp v ∧ clamp v ≤ 255 := by
  refine ⟨le_max_left 0 _, max_le (by norm_num) (min_le_right v 255)⟩

/-! ## Claim theorems -/

/-- C1, counterexample: in `augment_image cexStep [0, 1] 0` kernel 0
succeeds (buffer 0 becomes 1) and kernel 1 raises; the chain aborts with
the local buffer at value 1, and the composer returns 1 — the partially
augmented buffer — not the original 0 the claim promises. -/
theorem c1_counterexample :
    tryChain cexStep [0, 1] (0 : Int) = .error ((), 1) ∧
    augment_image cexStep [0, 1] (0 : Int) = .ok 1 ∧ (1 : Int) ≠ 0 :=
  ⟨rfl, rfl, by decide⟩

/-- C1, amended: if a kernel in the selected chain raises, augment_image
logs the error and returns the buffer as it was at the moment of failure,
i.e. with the effects of every kernel that succeeded before the failing
one still applied (`chainKept`), not the original buffer. -/
theorem c1_image_error_keeps_partial {κ β : Type}
    (step : κ → β → Except Unit β) (ks : List κ) (b : β) :
    augment_image step ks b = .ok (chainKept step ks b) := by
  induction ks generalizing b with
  | nil => rfl
  | cons k ks ih =>
    cases hk : step k b with
    | ok b2 =>
      simp only [augment_image, tryChain, chainKept, hk]
      simpa only [augment_image] using ih b2
    | error e =>
      simp only [augment_image, tryChain, chainKept, hk]

/-- C2, counterexample: on a 1 x 1 grey image with noise stream
5, -3, 7, ..., the code adds the single draw 5 to all three channels,
giving (105, 105, 105); the spec's three-independent-draws kernel would
give (105, 97, 107). -/
theorem c2_counterexample :
    (add_noise cexRng cexImg).pix 0 0 ≠ (add_noise_spec3 cexRng cexImg).pix 0 0 := by
  decide

/-- C2, amended: for every RGB image and every pixel, the NoiseInjection
kernel draws ONE integer noise value (the (i*h+j)-th draw of the stream)
and adds that same value to each of R, G and B, clamping to [0,255]. -/
theorem c2_noise_one_draw_per_pixel (rng : Nat → Int) (img : Img)
    (i j : Nat) (hi : i < img.w) (hj : j < img.h) :
    (add_noise rng img).pix i j =
      ⟨clamp ((img.pix i j).r + rng (i * img.h + j)),
       clamp ((img.pix i j).g + rng (i * img.h + j)),
       clamp ((img.pix i j).b + rng (i * img.h + j))⟩ :=
  add_noise_pix rng img i j hi hj

/-- C2, witness: the amended statement evaluated on the concrete 1 x 1
image and stream. -/
theorem c2_noise_one_draw_per_pixel_witness :
    (add_noise cexRng cexImg).pix 0 0 =
      ⟨clamp ((cexImg.pix 0 0).r + cexRng (0 * cexImg.h + 0)),
       clamp ((cexImg.pix 0 0).g + cexRng (0 * cexImg.h + 0)),
       clamp ((cexImg.pix 0 0).b + cexRng (0 * cexImg.h + 0))⟩ :=
  c2_noise_one_draw_per_pixel cexRng cexImg 0 0 (by decide) (by decide)

/-- C8: for every image, every noise stream and every pixel of the image,
all three channel values of the NoiseInjection output lie in [0, 255]. -/
theorem c8_noise_output_in_range (rng : Nat → Int) (img : Img)
    (i j : Nat) (hi : i < img.w) (hj : j < img.h) :
    (0 ≤ ((add_noise rng img).pix i j).r ∧ ((add_noise rng img).pix i j).r ≤ 255) ∧
    (0 ≤ ((add_noise rng img).pix i j).g ∧ ((add_noise rng img).pix i j).g ≤ 255) ∧
    (0 ≤ ((add_noise rng img).pix i j).b ∧ ((add_noise rng img).pix i j).b ≤ 255) := by
  rw [add_noise_pix rng img i j hi hj]
  exact ⟨clamp_mem _, clamp_mem _, clamp_mem _⟩

/-- C8, witness: the range property evaluated on the concrete 1 x 1 image. -/
theorem c8_noise_output_in_range_witness :
    (0 ≤ ((add_noise cexRng cexImg).pix 0 0).r ∧
      ((add_noise cexRng cexImg).pix 0 0).r ≤ 255) ∧
    (0 ≤ ((add_noise cexRng cexImg).pix 0 0).g ∧
      ((add_noise cexRng cexImg).pix 0 0).g ≤ 255) ∧
    (0 ≤ ((add_noise cexRng cexImg).pix 0 0).b ∧
      ((add_noise cexRng cexImg).pix 0 0).b ≤ 255) :=
  c8_noise_output_in_range cexRng cexImg 0 0 (by decide) (by decide)

/-- C3, counterexample: the audio composer draws `randint(1, 3)`, so the
set of chain sizes it can produce is {1, 2, 3}, not
{1 .. min(4, |pool|)} = {1, 2, 3, 4} as the claim states. -/
theorem c3_counterexample :
    Finset.image audioNumApplied audioDrawOutcomes ≠
      Finset.Icc 1 (min 4 audioPool.length) := by
  decide

/-- C3, amended: the image composer draws k uniformly from
{1 .. min(4, |pool|)} = {1,2,3,4} (each size produced by exactly one
draw outcome of randint(1,4)); the audio composer draws k uniformly from
{1,2,3} only (randint(1,3)), even though min(4, |pool|) = 4. -/
theorem c3_chain_size_supports :
    Finset.image imgNumApplied imgDrawOutcomes =
      Finset.Icc 1 (min 4 imgPool.length) ∧
    Finset.image audioNumApplied audioDrawOutcomes = Finset.Icc 1 3 ∧
    (∀ k ∈ Finset.Icc 1 4,
      (imgDrawOutcomes.filter fun d => imgNumApplied d = k).card = 1) ∧
    (∀ k ∈ Finset.Icc 1 3,
      (audioDrawOutcomes.filter fun d => audioNumApplied d = k).card = 1) := by
  decide

/-- C4, counterexample: on the non-square 2 x 1 image, PIL rotate(90)
without expand crops; four successive 90-degree rotations black out pixel
(0, 0) instead of restoring it. -/
theorem c4_counterexample :
    cexImgNS.w ≠ cexImgNS.h ∧
    (rotate90 (rotate90 (rotate90 (rotate90 cexImgNS)))).pix 0 0 ≠
      cexImgNS.pix 0 0 := by
  decide

/-- On a square image, rotate(90) takes Pillow's exact transpose fast path. -/
theorem rotate90_lit (w : Nat) (p : Nat → Nat → RGB) :
    rotate90 ⟨w, w, p⟩ = ⟨w, w, fun x y => p (w - 1 - y) x⟩ := by
  unfold rotate90
  rw [if_pos rfl]

/-- C4, amended: for SQUARE images the rotation kernel is a lossless exact
permutation and applying the 90-degree rotation four times restores every
pixel; for non-square images Pillow's rotate(90) without expand crops, and
the claim fails (see the counterexample). -/
theorem c4_rotate_four_times_square (img : Img) (x y : Nat)
    (hsq : img.w = img.h) (hx : x < img.w) (hy : y < img.h) :
    (rotate90 (rotate90 (rotate90 (rotate90 img)))).pix x y = img.pix x y ∧
    (rotate90 (rotate90 (rotate90 (rotate90 img)))).w = img.w ∧
    (rotate90 (rotate90 (rotate90 (rotate90 img)))).h = img.h := by
  obtain ⟨w, h, p⟩ := img
  simp only at hsq hx hy
  subst hsq
  rw [rotate90_lit, rotate90_lit, rotate90_lit, rotate90_lit]
  refine ⟨?_, rfl, rfl⟩
  show p (w - 1 - (w - 1 - x)) (w - 1 - (w - 1 - y)) = p x y
  have hx2 : w - 1 - (w - 1 - x) = x := by omega
  have hy2 : w - 1 - (w - 1 - y) = y := by omega
  rw [hx2, hy2]

/-- C4, witness: the amended statement evaluated on the concrete square
2 x 2 image at pixel (0, 1). -/
theorem c4_rotate_four_times_square_witness :
    (rotate90 (rotate90 (rotate90 (rotate90 cexSq)))).pix 0 1 = cexSq.pix 0 1 ∧
    (rotate90 (rotate90 (rotate90 (rotate90 cexSq)))).w = cexSq.w ∧
    (rotate90 (rotate90 (rotate90 (rotate90 cexSq)))).h = cexSq.h :=
  c4_rotate_four_times_square cexSq 0 1 rfl (by decide) (by decide)

/-- C5: for every buffer, every kernel chain and every outcome of each
kernel application (including raising ones), both composers return an
`.ok` buffer — no exception propagates out of augment_image (whole-chain
try/except) or augment_audio (per-kernel try/except in every kernel). -/
theorem c5_augment_never_raises {κ₁ β₁ κ₂ β₂ : Type}
    (stepI : κ₁ → β₁ → Except Unit β₁) (ksI : List κ₁) (bI : β₁)
    (stepA : κ₂ → β₂ → Except Unit β₂) (ksA : List κ₂) (bA : β₂) :
    (∃ r, augment_image stepI ksI bI = .ok r) ∧
    (∃ r, augment_audio stepA ksA bA = .ok r) := by
  constructor
  · unfold augment_image
    cases tryChain stepI ksI bI with
    | ok r => exact ⟨r, rfl⟩
    | error p =>
      obtain ⟨e, cur⟩ := p
      exact ⟨cur, rfl⟩
  · induction ksA generalizing bA with
    | nil => exact ⟨bA, rfl⟩
    | cons k ks ih =>
      show ∃ r, runChainExc (guardStep stepA) (k :: ks) bA = .ok r
      cases hk : stepA k bA with
      | ok b2 =>
        obtain ⟨r, hr⟩ := ih b2
        exact ⟨r, by simp only [runChainExc, guardStep, hk]; exact hr⟩
      | error e =>
        obtain ⟨r, hr⟩ := ih bA
        exact ⟨r, by simp only [runChainExc, guardStep, hk]; exact hr⟩

/-- C6: pitch_shift computes `int(frame_rate * 2 ** (semitones / 12))` and
then performs exactly the reinterpret-then-reset-rate mechanism of
time_stretch; the two functions agree definitionally at
rate = 2 ^ (semitones / 12), for every audio segment, every semitone value
and every resampling backend. -/
theorem c6_pitch_shift_is_time_stretch (setFR : AudioSeg → Nat → AudioSeg)
    (a : AudioSeg) (semitones : ℝ) :
    pitch_shift setFR a semitones =
      time_stretch setFR a ((2 : ℝ) ^ (semitones / 12)) := rfl

/-- Applying g dB of gain scales the sum of squares by the square of the
linear factor. -/
theorem sumSq_applyGain (g : ℝ) (xs : List ℝ) :
    sumSq (applyGain g xs) =
      ((10 : ℝ) ^ (g / 20) * (10 : ℝ) ^ (g / 20)) * sumSq xs := by
  induction xs with
  | nil => simp [sumSq, applyGain]
  | cons x xs ih =>
    simp only [sumSq, applyGain, List.map_cons, List.sum_cons] at ih ⊢
    rw [ih]
    ring

/-- Gain application does not change the sample count. -/
theorem length_applyGain (g : ℝ) (xs : List ℝ) :
    (applyGain g xs).length = xs.length := by
  simp [applyGain]

/-- Applying g dB of gain scales the RMS amplitude by the linear factor. -/
theorem rms_applyGain (g : ℝ) (xs : List ℝ) :
    rms (applyGain g xs) = (10 : ℝ) ^ (g / 20) * rms xs := by
  have hc : (0 : ℝ) ≤ (10 : ℝ) ^ (g / 20) :=
    le_of_lt (Real.rpow_pos_of_pos (by norm_num) _)
  unfold rms
  rw [length_applyGain, sumSq_applyGain, mul_div_assoc,
    Real.sqrt_mul (by positivity), Real.sqrt_mul_self hc]

/-- Applying g dB of gain adds exactly g to the dBFS loudness of any
non-silent sample list. -/
theorem dBFS_applyGain (maxAmp g : ℝ) (xs : List ℝ) (hM : 0 < maxAmp)
    (hpos : 0 < sumSq xs) (hne : xs ≠ []) :
    dBFS maxAmp (applyGain g xs) = dBFS maxAmp xs + g := by
  have hn : (0 : ℝ) < xs.length :=
    Nat.cast_pos.mpr (List.length_pos.mpr hne)
  have hrms : 0 < rms xs := Real.sqrt_pos.mpr (div_pos hpos hn)
  have hc : (0 : ℝ) < (10 : ℝ) ^ (g / 20) :=
    Real.rpow_pos_of_pos (by norm_num) _
  unfold dBFS
  rw [rms_applyGain, mul_div_assoc,
    Real.logb_mul (ne_of_gt hc) (ne_of_gt (div_pos hrms hM)),
    Real.logb_rpow (by norm_num) (by norm_num)]
  ring

/-- C7: for every non-silent noise buffer and non-empty audio buffer, the
NoiseOverlay kernel applies gain `-(noise.dBFS - audio.dBFS - level)` to
the noise, which makes the rescaled noise's dBFS loudness equal the
audio's loudness plus the level, and then overlays (sample-wise sums,
truncated to the audio's length) the noise onto the audio; a zero-length
audio buffer is returned unchanged. -/
theorem c7_noise_overlay_loudness (maxAmp level : ℝ) (audio noise : List ℝ)
    (hM : 0 < maxAmp) (hpos : 0 < sumSq noise) (hne : noise ≠ [])
    (ha : audio ≠ []) :
    dBFS maxAmp
        (applyGain (-(dBFS maxAmp noise - dBFS maxAmp audio - level)) noise) =
      dBFS maxAmp audio + level ∧
    add_noise_audio maxAmp audio noise level =
      overlaySamples audio
        (applyGain (-(dBFS maxAmp noise - dBFS maxAmp audio - level)) noise) ∧
    add_noise_audio maxAmp [] noise level = [] := by
  refine ⟨?_, ?_, rfl⟩
  · rw [dBFS_applyGain maxAmp _ noise hM hpos hne]
    ring
  · unfold add_noise_audio
    rw [if_neg (by simpa [List.length_eq_zero] using ha)]

/-- C7, witness: the statement applied to audio [1], noise [1], level 0,
full-scale amplitude 1. -/
theorem c7_noise_overlay_loudness_witness :
    dBFS 1 (applyGain (-(dBFS 1 [1] - dBFS 1 [1] - 0)) [1]) = dBFS 1 [1] + 0 ∧
    add_noise_audio 1 [1] [1] 0 =
      overlaySamples [1] (applyGain (-(dBFS 1 [1] - dBFS 1 [1] - 0)) [1]) ∧
    add_noise_audio 1 [] [1] 0 = [] :=
  c7_noise_overlay_loudness 1 0 [1] [1] (by norm_num)
    (by norm_num [sumSq]) (by simp) (by simp)

/-- Running the image chain on the heap never disturbs a buffer that is
already allocated and distinct from the chain's working buffer: the only
in-place write goes through the working id, and fresh allocations use ids
the old buffers do not occupy. -/
theorem runImgChainSt_preserves {β : Type} (f : ImgKernel → β → β)
    (ks : List ImgKernel) :
    ∀ (s : Store β) (id j : Nat), j < s.next → j ≠ id →
      (runImgChainSt f s id ks).1.bufs j = s.bufs j ∧
      j < (runImgChainSt f s id ks).1.next ∧
      j ≠ (runImgChainSt f s id ks).2 := by
  induction ks with
  | nil =>
    intro s id j h1 h2
    exact ⟨rfl, h1, h2⟩
  | cons k ks ih =>
    intro s id j h1 h2
    show (runImgChainSt f (applyImgKernelSt f s id k).1
        (applyImgKernelSt f s id k).2 ks).1.bufs j = s.bufs j ∧
      j < (runImgChainSt f (applyImgKernelSt f s id k).1
        (applyImgKernelSt f s id k).2 ks).1.next ∧
      j ≠ (runImgChainSt f (applyImgKernelSt f s id k).1
        (applyImgKernelSt f s id k).2 ks).2
    cases hk : imgKernelInPlace k with
    | true =>
      have hs : applyImgKernelSt f s id k = (s.put id (f k (s.bufs id)), id) := by
        rw [applyImgKernelSt, hk, if_pos rfl]
      rw [hs]
      have h := ih (s.put id (f k (s.bufs id))) id j h1 h2
      rw [h.1]
      refine ⟨?_, h.2.1, h.2.2⟩
      show (if j = id then f k (s.bufs id) else s.bufs j) = s.bufs j
      rw [if_neg h2]
    | false =>
      have hs : applyImgKernelSt f s id k = s.alloc (f k (s.bufs id)) := by
        rw [applyImgKernelSt, hk]
        rfl
      rw [hs]
      have h := ih (s.alloc (f k (s.bufs id))).1 (s.alloc (f k (s.bufs id))).2 j
        (by show j < s.next + 1; omega) (by show j ≠ s.next; omega)
      rw [h.1]
      refine ⟨?_, h.2.1, h.2.2⟩
      show (if j = s.next then f k (s.bufs id) else s.bufs j) = s.bufs j
      rw [if_neg (by omega)]

/-- Running the audio chain on the heap never disturbs any buffer that is
already allocated: audio kernels only allocate, never write in place. -/
theorem runAudioChainSt_preserves {β : Type} (g : AudioKernel → β → β)
    (ks : List AudioKernel) :
    ∀ (s : Store β) (id j : Nat), j < s.next →
      (runAudioChainSt g s id ks).1.bufs j = s.bufs j ∧
      j < (runAudioChainSt g s id ks).1.next := by
  induction ks with
  | nil =>
    intro s id j h1
    exact ⟨rfl, h1⟩
  | cons k ks ih =>
    intro s id j h1
    show (runAudioChainSt g (s.alloc (g k (s.bufs id))).1
        (s.alloc (g k (s.bufs id))).2 ks).1.bufs j = s.bufs j ∧
      j < (runAudioChainSt g (s.alloc (g k (s.bufs id))).1
        (s.alloc (g k (s.bufs id))).2 ks).1.next
    have h := ih (s.alloc (g k (s.bufs id))).1 (s.alloc (g k (s.bufs id))).2 j
      (by show j < s.next + 1; omega)
    rw [h.1]
    refine ⟨?_, h.2⟩
    show (if j = s.next then g k (s.bufs id) else s.bufs j) = s.bufs j
    rw [if_neg (by omega)]

/-- C9: for every heap, every chain and every kernel semantics, one driver
iteration leaves the loaded original buffer unmodified: the image driver
deep-copies the original into a fresh buffer before running the chain (so
even the in-place NoiseInjection write misses the original), and the audio
driver's kernels are all pure, allocating fresh segments only. -/
theorem c9_driver_preserves_original {β₁ β₂ : Type}
    (f : ImgKernel → β₁ → β₁) (g : AudioKernel → β₂ → β₂)
    (s₁ : Store β₁) (s₂ : Store β₂) (origI origA : Nat)
    (ksI : List ImgKernel) (ksA : List AudioKernel)
    (h₁ : origI < s₁.next) (h₂ : origA < s₂.next) :
    (imgDriverCopy f s₁ origI ksI).1.bufs origI = s₁.bufs origI ∧
    (audioDriverCopy g s₂ origA ksA).1.bufs origA = s₂.bufs origA := by
  constructor
  · show (runImgChainSt f (s₁.alloc (s₁.bufs origI)).1
        (s₁.alloc (s₁.bufs origI)).2 ksI).1.bufs origI = s₁.bufs origI
    have h := runImgChainSt_preserves f ksI (s₁.alloc (s₁.bufs origI)).1
      (s₁.alloc (s₁.bufs origI)).2 origI
      (by show origI < s₁.next + 1; omega) (by show origI ≠ s₁.next; omega)
    rw [h.1]
    show (if origI = s₁.next then s₁.bufs origI else s₁.bufs origI) = s₁.bufs origI
    rw [if_neg (by omega)]
  · exact (runAudioChainSt_preserves g ksA s₂ origA origA h₂).1

/-- C9, witness: a concrete one-buffer store on each side, the full kernel
pools as chains, and concrete kernel semantics. -/
theorem c9_driver_preserves_original_witness :
    (imgDriverCopy (fun _ b => b + 1) cexStoreI 0 imgPool).1.bufs 0 =
      cexStoreI.bufs 0 ∧
    (audioDriverCopy (fun _ b => b + 2) cexStoreA 0 audioPool).1.bufs 0 =
      cexStoreA.bufs 0 :=
  c9_driver_preserves_original (fun _ b => b + 1) (fun _ b => b + 2)
    cexStoreI cexStoreA 0 0 imgPool audioPool (by decide) (by decide)

/-- Overlaying any second segment onto a first keeps the first's length. -/
theorem overlaySamples_length (a b : List ℝ) :
    (overlaySamples a b).length = a.length := by
  simp only [overlaySamples, List.length_append, List.length_zipWith,
    List.length_drop]
  omega

/-- Overlaying at any offset keeps the base segment's length. -/
theorem overlayAt_length (pos : Nat) (a b : List ℝ) :
    (overlayAt pos a b).length = a.length := by
  simp only [overlayAt, List.length_append, List.length_take,
    overlaySamples_length, List.length_drop]
  omega

/-- The frame rate reverb_effect returns: both sync steps convert to the
larger of the input's rate and the 11025 Hz silence default. -/
theorem reverb_effect_frameRate (conv : List ℝ → Nat → Nat → List ℝ)
    (a : AudioSeg) (decay : ℝ) :
    (reverb_effect conv a decay).frameRate =
      max a.frameRate (max 11025 a.frameRate) := rfl

/-- The sample count reverb_effect returns is that of the original after
the overlay's frame-rate sync (the overlay itself truncates the echo). -/
theorem reverb_effect_length (conv : List ℝ → Nat → Nat → List ℝ)
    (a : AudioSeg) (decay : ℝ) :
    (reverb_effect conv a decay).samples.length =
      (syncToRate conv a
        (max a.frameRate (max 11025 a.frameRate))).samples.length := by
  show (overlayAt _ _ _).length = _
  rw [overlayAt_length]

/-- C10, counterexample: on a 4-sample clip at 8000 Hz — below the
11025 Hz default rate of the generated silence — the overlay's sync
resamples the ORIGINAL up to 11025 Hz (ratecv: gcd 25, 441 * 3 / 320 + 1 =
5 frames), so reverb_effect returns 5 samples at 11025 Hz, not the input's
4 samples at 8000 Hz. -/
theorem c10_counterexample :
    (reverb_effect cexConv cexClip (1 / 2)).frameRate = 11025 ∧
    cexClip.frameRate = 8000 ∧
    (reverb_effect cexConv cexClip (1 / 2)).samples.length = 5 ∧
    cexClip.samples.length = 4 := by
  refine ⟨?_, rfl, ?_, rfl⟩
  · rw [reverb_effect_frameRate]
    rfl
  · rw [reverb_effect_length]
    show (syncToRate cexConv cexClip 11025).samples.length = 5
    unfold syncToRate
    rw [if_neg (by decide)]
    show (cexConv cexClip.samples 8000 11025).length = 5
    unfold cexConv
    rw [List.length_replicate]
    decide

/-- C10, amended: for every audio clip whose frame rate is at least the
11025 Hz default rate of the generated silence, every resampler backend
and every decay parameter, reverb_effect returns a clip with exactly the
input's sample count and frame rate — the overlay truncates the delayed
echo to the original's length, so the single-tap echo never lengthens the
clip. For clips below 11025 Hz the overlay's frame-rate sync resamples the
original up to 11025 Hz, changing both sample count and frame rate (see
the counterexample). -/
theorem c10_reverb_duration_high_rate (conv : List ℝ → Nat → Nat → List ℝ)
    (a : AudioSeg) (decay : ℝ) (hfr : 11025 ≤ a.frameRate) :
    (reverb_effect conv a decay).samples.length = a.samples.length ∧
    (reverb_effect conv a decay).frameRate = a.frameRate := by
  have h1 : max 11025 a.frameRate = a.frameRate := max_eq_right hfr
  have hmax : max a.frameRate (max 11025 a.frameRate) = a.frameRate := by
    rw [h1, max_self]
  constructor
  · rw [reverb_effect_length, hmax]
    unfold syncToRate
    rw [if_pos rfl]
  · rw [reverb_effect_frameRate, hmax]

/-- C10, witness: the amended statement evaluated on the concrete
one-sample clip at 44100 Hz. -/
theorem c10_reverb_duration_high_rate_witness :
    (reverb_effect cexConv cexClipHi 0).samples.length =
      cexClipHi.samples.length ∧
    (reverb_effect cexConv cexClipHi 0).frameRate = cexClipHi.frameRate :=
  c10_reverb_duration_high_rate cexConv cexClipHi 0 (by decide)

end NeuroAug
